import Mathlib

/-!
Verification of the subtitle alignment engine of the xml-subtitle-converter
repository (src/index.js).

The development shallowly embeds the core of the program:

* time parsing (`parseInt(time.replace("t",""))`) and the tick-to-SRT time
  code conversion `convertTimeToSRT`;
* the timeline combination strategy `createCombinedSRTTimeline` (merge of the
  two tracks, stable sort by the raw `startTime` tick count);
* the paired combination strategy `createCombinedSRTPaired` (single pass over
  the primary track with a windowed, slightly backtracking best-match search
  into the secondary track);
* the regex-based cue extraction `extractSubtitlesWithRegex`.

JS `number` values that occur in the matching and sorting code are integer
tick counts; for tick counts below `2 ^ 52` all JS double arithmetic performed
on them (subtraction, absolute value, comparison) is exact, so they are
modeled by `Int`/`Nat`.  The only fractional arithmetic, inside
`convertTimeToSRT`, is modeled by exact rationals.
-/

namespace XmlSubtitle

/-- One extracted subtitle cue, exactly as built by `extractSubtitlesWithRegex`:
the raw `begin`/`end` attribute strings (a digit run followed by `t`) and the
display text. -/
structure Subtitle where
  «begin» : String
  «end» : String
  text : String
deriving Repr, DecidableEq, Inhabited

/-- Numeric value of a run of decimal digit characters. -/
def digitsToNat (l : List Char) : Nat :=
  l.foldl (fun a c => a * 10 + (c.toNat - 48)) 0

/-- Remove the first occurrence of a character.  JS `s.replace("t", "")` with a
string pattern replaces only the first occurrence. -/
def removeFirst (c : Char) : List Char → List Char
  | [] => []
  | x :: xs => if x = c then xs else x :: removeFirst c xs

/-- Model of `time.toString().replace("t", "")` from the source. -/
def replaceT (s : String) : String :=
  ⟨removeFirst 't' s.data⟩

/-- Whitespace skipped by JS `parseInt`. -/
def isSpaceJS (c : Char) : Bool :=
  c = ' ' || c = '\t' || c = '\n' || c = '\r'

/-- Model of JS `parseInt(s)` in base 10: skip leading whitespace, read an
optional sign and a maximal leading digit run; `none` models `NaN`. -/
def parseIntJS (s : String) : Option Int :=
  match s.data.dropWhile isSpaceJS with
  | [] => none
  | c :: rest =>
    if c = '-' then
      let ds := rest.takeWhile Char.isDigit
      if ds.isEmpty then none else some (-(digitsToNat ds : Int))
    else if c = '+' then
      let ds := rest.takeWhile Char.isDigit
      if ds.isEmpty then none else some ((digitsToNat ds : Int))
    else
      let ds := (c :: rest).takeWhile Char.isDigit
      if ds.isEmpty then none else some ((digitsToNat ds : Int))

/-- The raw start tick count of a cue: `parseInt(sub.begin.replace("t", ""))`.
A `NaN` result (non-numeric attribute) is defaulted to `0`; the theorems that
depend on numeric behavior restrict to well-formed tick strings, the only
shape the extraction regexes produce. -/
def beginTicks (sub : Subtitle) : Int :=
  (parseIntJS (replaceT sub.«begin»)).getD 0

/-- Well-formedness of a raw tick attribute string: a nonempty digit run
followed by `t`, with a value below `2 ^ 52` so that JS double arithmetic on
it is exact and absolute differences of two such values stay strictly below
`Number.MAX_SAFE_INTEGER`.  The extraction regexes only produce strings of
this shape. -/
def wfTick (s : String) : Bool :=
  s.data.getLast? == some 't' && !s.data.dropLast.isEmpty &&
    s.data.dropLast.all Char.isDigit &&
    decide (digitsToNat s.data.dropLast < 2 ^ 52)

/-- Build a well-formed cue directly from numeric tick counts. -/
def cue (b e : Nat) (txt : String) : Subtitle :=
  { «begin» := toString b ++ "t", «end» := toString e ++ "t", text := txt }

/-- Model of `String.prototype.padStart(n, c)`. -/
def padStart (s : String) (n : Nat) (c : Char) : String :=
  ⟨List.replicate (n - s.data.length) c⟩ ++ s

/-- JS `%` (fmod) for the non-negative operands occurring in the conversion,
where it agrees with the floor-based remainder. -/
def jsMod (a b : ℚ) : ℚ :=
  a - b * (⌊a / b⌋ : ℚ)

/-- Model of `convertTimeToSRT` (source lines 391-412).  JS binary64
arithmetic is modeled by exact rationals; a zero tick rate, which in JS
produces an Infinity/NaN time string, falls back to rational division's zero
convention here.  No theorem below depends on the rendered string in that
degenerate case. -/
def convertTimeToSRT (time : String) (tickRate : Nat) : String :=
  let timeValue : Int := (parseIntJS (replaceT time)).getD 0
  let totalSeconds : ℚ := (timeValue : ℚ) / (tickRate : ℚ)
  let hours : Int := ⌊totalSeconds / 3600⌋
  let minutes : Int := ⌊jsMod totalSeconds 3600 / 60⌋
  let seconds : Int := ⌊jsMod totalSeconds 60⌋
  let milliseconds : Int := ⌊(totalSeconds - (⌊totalSeconds⌋ : ℚ)) * 1000⌋
  padStart (toString hours) 2 '0' ++ ":" ++ padStart (toString minutes) 2 '0' ++ ":" ++
    padStart (toString seconds) 2 '0' ++ "," ++ padStart (toString milliseconds) 3 '0'

/-- A merged subtitle as built by `createCombinedSRTTimeline` (source lines
774-787): the cue together with its language tag, its track's tick rate and
the pre-parsed raw start tick count. -/
structure MergedSub where
  «begin» : String
  «end» : String
  text : String
  language : String
  tickRate : Nat
  startTime : Int
deriving Repr, DecidableEq, Inhabited

/-- Annotate one cue with its track data, as the two `.map` calls do. -/
def toMerged (language : String) (tickRate : Nat) (sub : Subtitle) : MergedSub :=
  { «begin» := sub.«begin», «end» := sub.«end», text := sub.text,
    language := language, tickRate := tickRate, startTime := beginTicks sub }

/-- The merged, sorted subtitle list of `createCombinedSRTTimeline` (source
lines 774-790): concatenation of the two annotated tracks, stably sorted by
the raw `startTime` tick count.  JS `Array.prototype.sort` is stable and the
comparator is `a.startTime - b.startTime`, modeled by a stable merge sort on
`a.startTime ≤ b.startTime`. -/
def mergedSubtitles (subs1 subs2 : List Subtitle) (language1 language2 : String)
    (tickRate1 tickRate2 : Nat) : List MergedSub :=
  (subs1.map (toMerged language1 tickRate1) ++
      subs2.map (toMerged language2 tickRate2)).mergeSort
    fun a b => a.startTime ≤ b.startTime

/-- One SRT block of the timeline output (index, time range in the cue's own
tick rate, single text). -/
def timelineBlock (index : Nat) (sub : MergedSub) : String :=
  toString index ++ "\n" ++ convertTimeToSRT sub.«begin» sub.tickRate ++ " --> " ++
    convertTimeToSRT sub.«end» sub.tickRate ++ "\n" ++ sub.text ++ "\n\n"

/-- The timeline output loop (source lines 796-810), with its 1-based
incrementing index counter. -/
def timelineRender : List MergedSub → Nat → String
  | [], _ => ""
  | sub :: rest, index => timelineBlock index sub ++ timelineRender rest (index + 1)

/-- The full `srtContent` string produced by `createCombinedSRTTimeline` from
the two extracted cue lists. -/
def createCombinedSRTTimelineContent (subs1 subs2 : List Subtitle)
    (language1 language2 : String) (tickRate1 tickRate2 : Nat) : String :=
  timelineRender (mergedSubtitles subs1 subs2 language1 language2 tickRate1 tickRate2) 1

/-- The three loop variables of the best-match search in
`createCombinedSRTPaired`: `bestMatch`, `bestMatchIndex` (initially `-1`) and
`minTimeDiff` (initially `Number.MAX_SAFE_INTEGER`). -/
structure BestMatch where
  bestMatch : Option Subtitle
  bestMatchIndex : Int
  minTimeDiff : Nat
deriving Repr, DecidableEq

/-- Value of `Number.MAX_SAFE_INTEGER`, that is `2 ^ 53 - 1`. -/
def maxSafeInteger : Nat := 9007199254740991

/-- The inner `for (let k = startJ; k < endJ; k++)` search loop (source lines
613-623); `n` counts the remaining iterations, so the calls below run `k` from
`startJ` to `endJ - 1`.  An update happens when the absolute raw tick
difference is strictly smaller than the minimum so far, so the earliest index
wins ties. -/
def findBestAux (subs2 : List Subtitle) (startTime1 : Int) :
    Nat → Nat → BestMatch → BestMatch
  | _, 0, st => st
  | k, n + 1, st =>
    match subs2[k]? with
    | none => findBestAux subs2 startTime1 (k + 1) n st
    | some subtitle2 =>
      let timeDiff := (startTime1 - beginTicks subtitle2).natAbs
      findBestAux subs2 startTime1 (k + 1) n
        (if timeDiff < st.minTimeDiff then ⟨some subtitle2, (k : Int), timeDiff⟩ else st)

/-- The per-primary-cue search of `createCombinedSRTPaired` (source lines
604-623): search window of 10 starting at `startJ = Math.max(0, j - 2)`
(modeled by `Int.toNat`, which clamps negatives to 0) and ending at
`endJ = Math.min(subtitles2.length, startJ + searchWindow)`. -/
def bestFor (subs2 : List Subtitle) (j : Int) (subtitle1 : Subtitle) : BestMatch :=
  let startTime1 := beginTicks subtitle1
  let startJ := (j - 2).toNat
  let endJ := min subs2.length (startJ + 10)
  findBestAux subs2 startTime1 startJ (endJ - startJ) ⟨none, -1, maxSafeInteger⟩

/-- The cursor update of the paired loop: on an accepted match
(`bestMatch` found and `minTimeDiff < 10000000`), `j` becomes
`bestMatchIndex + 1`; otherwise `j` is left unchanged. -/
def nextJ (subs2 : List Subtitle) (j : Int) (subtitle1 : Subtitle) : Int :=
  let best := bestFor subs2 j subtitle1
  match best.bestMatch with
  | some _ => if best.minTimeDiff < 10000000 then best.bestMatchIndex + 1 else j
  | none => j

/-- One output entry of the paired strategy: the 1-based index, the primary
cue's raw time range and text, and the matched secondary text when a match
was accepted. -/
structure PairedEntry where
  index : Nat
  «begin» : String
  «end» : String
  text : String
  matchText : Option String
deriving Repr, DecidableEq

/-- The appended secondary text of one paired iteration: the best match's
text exactly when the search accepted it (`bestMatch && minTimeDiff <
10000000`, the one-second threshold at the default tick rate). -/
def matchTextOf (subs2 : List Subtitle) (j : Int) (subtitle1 : Subtitle) : Option String :=
  match (bestFor subs2 j subtitle1).bestMatch with
  | some bm =>
    if (bestFor subs2 j subtitle1).minTimeDiff < 10000000 then some bm.text else none
  | none => none

/-- The main loop of `createCombinedSRTPaired` (source lines 596-641) at the
level of output entries: one entry per primary cue, carrying the secondary
text exactly when the windowed search accepted a match. -/
def pairedLoop (subs2 : List Subtitle) : List Subtitle → Int → Nat → List PairedEntry
  | [], _, _ => []
  | subtitle1 :: rest, j, index =>
    { index := index, «begin» := subtitle1.«begin», «end» := subtitle1.«end»,
      text := subtitle1.text, matchText := matchTextOf subs2 j subtitle1 } ::
      pairedLoop subs2 rest (nextJ subs2 j subtitle1) (index + 1)

/-- The pre-pass sort of both tracks (source lines 582-589):
`subtitles.sort((a, b) => parseInt(a.begin...) - parseInt(b.begin...))`,
modeled by the stable merge sort on the parsed begin tick counts. -/
def sortSubs (subs : List Subtitle) : List Subtitle :=
  subs.mergeSort fun a b => beginTicks a ≤ beginTicks b

/-- The DisplayEntry sequence produced by `createCombinedSRTPaired` from the
two extracted cue lists: both tracks are sorted by begin time, then the main
loop runs with initial cursor `j = 0` and initial SRT index `1`. -/
def createCombinedSRTPairedEntries (subs1 subs2 : List Subtitle) : List PairedEntry :=
  pairedLoop (sortSubs subs2) (sortSubs subs1) 0 1

/-- One SRT block of the paired output; both time codes use the primary
track's tick rate, and the matched text, when present, is a second text
line. -/
def pairedBlock (tickRate1 : Nat) (e : PairedEntry) : String :=
  toString e.index ++ "\n" ++ convertTimeToSRT e.«begin» tickRate1 ++ " --> " ++
    convertTimeToSRT e.«end» tickRate1 ++ "\n" ++ e.text ++ "\n" ++
    (match e.matchText with | some t => t ++ "\n" | none => "") ++ "\n"

/-- The full `srtContent` string produced by `createCombinedSRTPaired`. -/
def createCombinedSRTPairedContent (subs1 subs2 : List Subtitle) (tickRate1 : Nat) : String :=
  String.join ((createCombinedSRTPairedEntries subs1 subs2).map (pairedBlock tickRate1))

/-- Consume an exact literal prefix of the input, or fail. -/
def matchLit : List Char → List Char → Option (List Char)
  | [], cs => some cs
  | _, [] => none
  | p :: ps, c :: cs => if c = p then matchLit ps cs else none

/-- Consume a maximal nonempty digit run: regex `\d+` immediately followed by
a non-digit literal, where greedy matching needs no backtracking. -/
def takeDigits1 (cs : List Char) : Option (List Char × List Char) :=
  let ds := cs.takeWhile Char.isDigit
  if ds.isEmpty then none else some (ds, cs.dropWhile Char.isDigit)

/-- Lazy regex fragment `([\s\S]*?)` followed by a literal: return the
shortest content preceding the first occurrence of the literal, and the
remainder after the literal; fail when the literal never occurs. -/
def takeUntilLit (lit : List Char) : List Char → Option (List Char × List Char)
  | [] => if lit.isEmpty then some ([], []) else none
  | c :: cs =>
    match matchLit lit (c :: cs) with
    | some rest => some ([], rest)
    | none =>
      match takeUntilLit lit cs with
      | some (content, rest) => some (c :: content, rest)
      | none => none

/-- Attempt to match the Korean cue regex of the source,
`<p xml:id="subtitle\d+" begin="(\d+t)" end="(\d+t)" region="region\d+"
style="style\d+">([\s\S]*?)</p>`, at the start of the input; on success
return the two captured tick strings, the raw inner content and the
remainder after the match. -/
def krMatchHere (cs : List Char) : Option (String × String × String × List Char) := do
  let cs ← matchLit "<p xml:id=\"subtitle".data cs
  let (_, cs) ← takeDigits1 cs
  let cs ← matchLit "\" begin=\"".data cs
  let (bds, cs) ← takeDigits1 cs
  let cs ← matchLit "t\" end=\"".data cs
  let (eds, cs) ← takeDigits1 cs
  let cs ← matchLit "t\" region=\"region".data cs
  let (_, cs) ← takeDigits1 cs
  let cs ← matchLit "\" style=\"style".data cs
  let (_, cs) ← takeDigits1 cs
  let cs ← matchLit "\">".data cs
  let (content, rest) ← takeUntilLit "</p>".data cs
  pure (⟨bds ++ ['t']⟩, ⟨eds ++ ['t']⟩, ⟨content⟩, rest)

/-- Attempt to match the Chinese cue regex of the source, which differs from
the Korean one only by the absence of the `style` attribute. -/
def chMatchHere (cs : List Char) : Option (String × String × String × List Char) := do
  let cs ← matchLit "<p xml:id=\"subtitle".data cs
  let (_, cs) ← takeDigits1 cs
  let cs ← matchLit "\" begin=\"".data cs
  let (bds, cs) ← takeDigits1 cs
  let cs ← matchLit "t\" end=\"".data cs
  let (eds, cs) ← takeDigits1 cs
  let cs ← matchLit "t\" region=\"region".data cs
  let (_, cs) ← takeDigits1 cs
  let cs ← matchLit "\">".data cs
  let (content, rest) ← takeUntilLit "</p>".data cs
  pure (⟨bds ++ ['t']⟩, ⟨eds ++ ['t']⟩, ⟨content⟩, rest)

/-- Attempt to match the span regex `<span[^>]*>([\s\S]*?)</span>` at the
start of the input, returning the captured content and the remainder. -/
def spanMatchHere (cs : List Char) : Option (List Char × List Char) := do
  let cs ← matchLit "<span".data cs
  let cs ← matchLit ">".data (cs.dropWhile fun c => c ≠ '>')
  takeUntilLit "</span>".data cs

/-- The global `spanRegex.exec` loop: scan for successive non-overlapping
span matches, resuming after each match.  The fuel argument, instantiated
with the input length, bounds the scan; every step consumes at least one
input character, so the fuel never runs out first. -/
def spanScan : Nat → List Char → List (List Char)
  | 0, _ => []
  | _ + 1, [] => []
  | fuel + 1, c :: cs =>
    match spanMatchHere (c :: cs) with
    | some (content, rest) => content :: spanScan fuel rest
    | none => spanScan fuel cs

/-- The span text accumulation of the Chinese branch:
`if (text) { text += "\n" } text += spanMatch[1]` — a separating newline is
added only when the accumulated text is nonempty (JS string truthiness). -/
def joinSpans (caps : List (List Char)) : String :=
  caps.foldl (fun text cap => if text = "" then ⟨cap⟩ else text ++ "\n" ++ (⟨cap⟩ : String)) ""

/-- The global `subtitleRegex.exec` loop of the Korean branch (source lines
429-439): each match yields a cue whose text is the content with `<br/>`
replaced by newlines everywhere. -/
def krScan : Nat → List Char → List Subtitle
  | 0, _ => []
  | _ + 1, [] => []
  | fuel + 1, c :: cs =>
    match krMatchHere (c :: cs) with
    | some (b, e, content, rest) =>
      { «begin» := b, «end» := e, text := content.replace "<br/>" "\n" } :: krScan fuel rest
    | none => krScan fuel cs

/-- The global `subtitleRegex.exec` loop of the Chinese branch (source lines
446-471): each match yields a cue whose text is the newline-joined span
contents with `<br/>` replaced by newlines everywhere. -/
def chScan : Nat → List Char → List Subtitle
  | 0, _ => []
  | _ + 1, [] => []
  | fuel + 1, c :: cs =>
    match chMatchHere (c :: cs) with
    | some (b, e, content, rest) =>
      { «begin» := b, «end» := e,
        text := (joinSpans (spanScan content.data.length content.data)).replace "<br/>" "\n" } ::
        chScan fuel rest
    | none => chScan fuel cs

/-- Model of `extractSubtitlesWithRegex` (source lines 420-475): dispatch on
the language tag; any language other than `"kr"` or `"ch"` falls through both
branches and yields the empty list. -/
def extractSubtitlesWithRegex (xmlContent : String) (language : String) : List Subtitle :=
  if language = "kr" then krScan xmlContent.data.length xmlContent.data
  else if language = "ch" then chScan xmlContent.data.length xmlContent.data
  else []

/-- One SRT block of the single-file conversion `convertToSRT` (source lines
498-506). -/
def srtBlock (index : Nat) (tickRate : Nat) (sub : Subtitle) : String :=
  toString index ++ "\n" ++ convertTimeToSRT sub.«begin» tickRate ++ " --> " ++
    convertTimeToSRT sub.«end» tickRate ++ "\n" ++ sub.text ++ "\n\n"

/-- The `srtContent` accumulation loop of `convertToSRT`, with its 1-based
index. -/
def convertToSRTRender : List Subtitle → Nat → Nat → String
  | [], _, _ => ""
  | sub :: rest, tickRate, index =>
    srtBlock index tickRate sub ++ convertToSRTRender rest tickRate (index + 1)

/-- The full `srtContent` string produced by `convertToSRT` from an extracted
cue list. -/
def convertToSRTContent (subs : List Subtitle) (tickRate : Nat) : String :=
  convertToSRTRender subs tickRate 1

/-- Follows the spec's words, for comparison with the code model:
`NormalizedTime` is `tick_count / tick_rate`, real-valued seconds.  The code
model above never computes this quantity; it is stated here solely to compare
the specified normalized-time comparisons with the code's raw-tick
comparisons. -/
def specNormalize (tickCount tickRate : Nat) : ℚ :=
  (tickCount : ℚ) / (tickRate : ℚ)

/-! Parsing lemmas for well-formed tick strings. -/

theorem isSpaceJS_eq_false_of_isDigit {c : Char} (h : c.isDigit = true) :
    isSpaceJS c = false := by
  unfold isSpaceJS
  by_contra hc
  simp only [Bool.not_eq_false, Bool.or_eq_true, decide_eq_true_eq] at hc
  rcases hc with ((hc | hc) | hc) | hc <;> (subst hc; exact absurd h (by decide))

theorem removeFirst_append_self {c : Char} : ∀ {l : List Char}, c ∉ l →
    removeFirst c (l ++ [c]) = l
  | [], _ => by simp [removeFirst]
  | x :: xs, h => by
    have hx : ¬x = c := fun e => h (e ▸ List.mem_cons_self x xs)
    simp only [List.cons_append, removeFirst, if_neg hx]
    exact congrArg (x :: ·) (removeFirst_append_self fun hm => h (List.mem_cons_of_mem x hm))

theorem wfTick_parse {s : String} (h : wfTick s = true) :
    parseIntJS (replaceT s) = some ((digitsToNat s.data.dropLast : Int)) := by
  unfold wfTick at h
  simp only [Bool.and_eq_true, beq_iff_eq, Bool.not_eq_true', List.isEmpty_eq_false,
    List.all_eq_true, decide_eq_true_eq] at h
  obtain ⟨⟨⟨hlast, hne⟩, hdig⟩, -⟩ := h
  have hsplit : s.data.dropLast ++ ['t'] = s.data :=
    List.dropLast_append_getLast? 't' (by simp [hlast, Option.mem_def])
  have htnotmem : 't' ∉ s.data.dropLast := fun hm => absurd (hdig _ hm) (by decide)
  have hrem : removeFirst 't' s.data = s.data.dropLast := by
    conv_lhs => rw [← hsplit]
    exact removeFirst_append_self htnotmem
  have hrep : replaceT s = ⟨s.data.dropLast⟩ := by
    show (⟨removeFirst 't' s.data⟩ : String) = _
    rw [hrem]
  rw [hrep]
  obtain ⟨d, ds, hds⟩ := List.exists_cons_of_ne_nil hne
  have hd : d.isDigit = true := hdig d (by rw [hds]; exact List.mem_cons_self d ds)
  unfold parseIntJS
  have hdata : (⟨s.data.dropLast⟩ : String).data = s.data.dropLast := rfl
  rw [hdata, hds, List.dropWhile_cons, isSpaceJS_eq_false_of_isDigit hd]
  simp only [Bool.false_eq_true, if_false]
  have hdm : ¬d = '-' := fun e => absurd (e ▸ hd) (by decide)
  have hdp : ¬d = '+' := fun e => absurd (e ▸ hd) (by decide)
  rw [if_neg hdm, if_neg hdp]
  have htw : (d :: ds).takeWhile Char.isDigit = d :: ds :=
    List.takeWhile_eq_self_iff.mpr (by rw [← hds]; exact hdig)
  rw [htw]
  simp [hds]

theorem wfTick_beginTicks {sub : Subtitle} (h : wfTick sub.«begin» = true) :
    0 ≤ beginTicks sub ∧ beginTicks sub < 2 ^ 52 := by
  have hb : digitsToNat sub.«begin».data.dropLast < 2 ^ 52 := by
    unfold wfTick at h
    simp only [Bool.and_eq_true, decide_eq_true_eq] at h
    exact h.2
  unfold beginTicks
  rw [wfTick_parse h]
  simp only [Option.getD_some]
  exact ⟨Int.natCast_nonneg _, by exact_mod_cast hb⟩

/-! Characterization of the inner best-match search loop. -/

/-- Outcome of the search loop from an arbitrary state: either no candidate in
the scanned range beats the incoming minimum and the state is returned
unchanged, or the loop returns the earliest index of the scanned range
attaining the strict minimum distance. -/
theorem findBestAux_cases (subs2 : List Subtitle) (s1 : Int) :
    ∀ (n k : Nat) (st : BestMatch),
      (findBestAux subs2 s1 k n st = st ∧
        ∀ m b, k ≤ m → m < k + n → subs2[m]? = some b →
          st.minTimeDiff ≤ (s1 - beginTicks b).natAbs) ∨
      (∃ kb bm, k ≤ kb ∧ kb < k + n ∧ subs2[kb]? = some bm ∧
        findBestAux subs2 s1 k n st = ⟨some bm, (kb : Int), (s1 - beginTicks bm).natAbs⟩ ∧
        (s1 - beginTicks bm).natAbs < st.minTimeDiff ∧
        (∀ m b, k ≤ m → m < k + n → subs2[m]? = some b →
          (s1 - beginTicks bm).natAbs ≤ (s1 - beginTicks b).natAbs) ∧
        (∀ m b, k ≤ m → m < kb → subs2[m]? = some b →
          (s1 - beginTicks bm).natAbs < (s1 - beginTicks b).natAbs))
  | 0, k, st => by
    left
    refine ⟨rfl, fun m b h1 h2 _ => absurd h2 (by omega)⟩
  | n + 1, k, st => by
    rcases hk : subs2[k]? with _ | b2
    · rcases findBestAux_cases subs2 s1 n (k + 1) st with ⟨heq, hmin⟩ |
        ⟨kb, bm, hk1, hk2, hkb, heq, hlt, hmin, hfirst⟩
      · left
        refine ⟨by rw [findBestAux, hk]; exact heq, fun m b h1 h2 hm => ?_⟩
        rcases Nat.eq_or_lt_of_le h1 with h1 | h1
        · rw [h1] at hk; rw [hk] at hm; exact absurd hm (by simp)
        · exact hmin m b h1 (by omega) hm
      · right
        refine ⟨kb, bm, by omega, by omega, hkb, by rw [findBestAux, hk]; exact heq, hlt,
          fun m b h1 h2 hm => ?_, fun m b h1 h2 hm => ?_⟩
        · rcases Nat.eq_or_lt_of_le h1 with h1 | h1
          · rw [h1] at hk; rw [hk] at hm; exact absurd hm (by simp)
          · exact hmin m b h1 (by omega) hm
        · rcases Nat.eq_or_lt_of_le h1 with h1 | h1
          · rw [h1] at hk; rw [hk] at hm; exact absurd hm (by simp)
          · exact hfirst m b h1 h2 hm
    · by_cases hd : (s1 - beginTicks b2).natAbs < st.minTimeDiff
      · have hstep : findBestAux subs2 s1 k (n + 1) st =
            findBestAux subs2 s1 (k + 1) n ⟨some b2, (k : Int), (s1 - beginTicks b2).natAbs⟩ := by
          rw [findBestAux, hk]
          simp only [if_pos hd]
        rcases findBestAux_cases subs2 s1 n (k + 1)
            ⟨some b2, (k : Int), (s1 - beginTicks b2).natAbs⟩ with ⟨heq, hmin⟩ |
          ⟨kb, bm, hk1, hk2, hkb, heq, hlt, hmin, hfirst⟩
        · right
          refine ⟨k, b2, Nat.le_refl k, by omega, hk, by rw [hstep]; exact heq, hd,
            fun m b h1 h2 hm => ?_, fun m b h1 h2 hm => absurd h2 (by omega)⟩
          rcases Nat.eq_or_lt_of_le h1 with h1 | h1
          · rw [h1] at hk; rw [hk] at hm
            exact (Option.some_inj.mp hm) ▸ Nat.le_refl _
          · exact hmin m b h1 (by omega) hm
        · right
          have hlt2 : (s1 - beginTicks bm).natAbs < (s1 - beginTicks b2).natAbs := hlt
          refine ⟨kb, bm, by omega, by omega, hkb, by rw [hstep]; exact heq, by omega,
            fun m b h1 h2 hm => ?_, fun m b h1 h2 hm => ?_⟩
          · rcases Nat.eq_or_lt_of_le h1 with h1 | h1
            · rw [h1] at hk; rw [hk] at hm
              exact (Option.some_inj.mp hm) ▸ Nat.le_of_lt hlt2
            · exact hmin m b h1 (by omega) hm
          · rcases Nat.eq_or_lt_of_le h1 with h1 | h1
            · rw [h1] at hk; rw [hk] at hm
              exact (Option.some_inj.mp hm) ▸ hlt2
            · exact hfirst m b h1 h2 hm
      · have hstep : findBestAux subs2 s1 k (n + 1) st = findBestAux subs2 s1 (k + 1) n st := by
          rw [findBestAux, hk]
          simp only [if_neg hd]
        rcases findBestAux_cases subs2 s1 n (k + 1) st with ⟨heq, hmin⟩ |
          ⟨kb, bm, hk1, hk2, hkb, heq, hlt, hmin, hfirst⟩
        · left
          refine ⟨by rw [hstep]; exact heq, fun m b h1 h2 hm => ?_⟩
          rcases Nat.eq_or_lt_of_le h1 with h1 | h1
          · rw [h1] at hk; rw [hk] at hm
            exact (Option.some_inj.mp hm) ▸ Nat.le_of_not_lt hd
          · exact hmin m b h1 (by omega) hm
        · right
          refine ⟨kb, bm, by omega, by omega, hkb, by rw [hstep]; exact heq, hlt,
            fun m b h1 h2 hm => ?_, fun m b h1 h2 hm => ?_⟩
          · rcases Nat.eq_or_lt_of_le h1 with h1 | h1
            · rw [h1] at hk; rw [hk] at hm
              refine (Option.some_inj.mp hm) ▸ ?_
              omega
            · exact hmin m b h1 (by omega) hm
          · rcases Nat.eq_or_lt_of_le h1 with h1 | h1
            · rw [h1] at hk; rw [hk] at hm
              refine (Option.some_inj.mp hm) ▸ ?_
              omega
            · exact hfirst m b h1 h2 hm

/-- When the windowed search returns a best match, that match is a member of
the secondary list, the recorded minimum is its raw tick distance to the
primary cue, and its index is at least the window start
`startJ = Math.max(0, j - 2)`. -/
theorem bestFor_spec (subs2 : List Subtitle) (j : Int) (a : Subtitle) (bm : Subtitle)
    (h : (bestFor subs2 j a).bestMatch = some bm) :
    bm ∈ subs2 ∧
    (bestFor subs2 j a).minTimeDiff = (beginTicks a - beginTicks bm).natAbs ∧
    ((j - 2).toNat : Int) ≤ (bestFor subs2 j a).bestMatchIndex := by
  rcases findBestAux_cases subs2 (beginTicks a)
      (min subs2.length ((j - 2).toNat + 10) - (j - 2).toNat) ((j - 2).toNat)
      ⟨none, -1, maxSafeInteger⟩ with ⟨heq, -⟩ |
    ⟨kb, bm2, hk1, _, hkb, heq, -, -, -⟩
  · rw [show bestFor subs2 j a =
        findBestAux subs2 (beginTicks a) ((j - 2).toNat)
          (min subs2.length ((j - 2).toNat + 10) - (j - 2).toNat)
          ⟨none, -1, maxSafeInteger⟩ from rfl, heq] at h
    exact absurd h (by simp)
  · rw [show bestFor subs2 j a =
        findBestAux subs2 (beginTicks a) ((j - 2).toNat)
          (min subs2.length ((j - 2).toNat + 10) - (j - 2).toNat)
          ⟨none, -1, maxSafeInteger⟩ from rfl, heq] at h ⊢
    obtain rfl : bm2 = bm := Option.some_inj.mp h
    refine ⟨List.getElem?_mem hkb, rfl, ?_⟩
    show ((j - 2).toNat : Int) ≤ (kb : Int)
    exact_mod_cast hk1

/-- The cursor never steps back by more than the backtrack allowance of 2:
one iteration of the paired loop moves the cursor from `j` to at least
`j - 2` (in fact to at least `max 0 (j - 2)`). -/
theorem nextJ_ge (subs2 : List Subtitle) (j : Int) (a : Subtitle) :
    j - 2 ≤ nextJ subs2 j a := by
  have h3 : j - 2 ≤ ((j - 2).toNat : Int) := Int.self_le_toNat _
  simp only [nextJ]
  split
  · next bm hb =>
    by_cases hlt : (bestFor subs2 j a).minTimeDiff < 10000000
    · rw [if_pos hlt]
      have h2 := (bestFor_spec subs2 j a bm hb).2.2
      omega
    · rw [if_neg hlt]
      omega
  · omega

/-- The paired loop emits exactly one entry per primary cue. -/
theorem pairedLoop_length (subs2 : List Subtitle) :
    ∀ (l : List Subtitle) (j : Int) (index : Nat),
      (pairedLoop subs2 l j index).length = l.length
  | [], _, _ => rfl
  | _ :: rest, j, index => by
    simp [pairedLoop, pairedLoop_length subs2 rest]

/-- Entry-level characterization of the paired loop: the `i`-th output entry
carries the `i`-th primary cue's raw time range and text and the running
index, and its second text block, when present, is the text of a secondary
cue whose raw start-tick distance to the primary cue is below the acceptance
threshold of 10,000,000 ticks. -/
theorem pairedLoop_getElem (subs2 : List Subtitle) :
    ∀ (l : List Subtitle) (j : Int) (index : Nat) (i : Nat), i < l.length →
      ∃ e, (pairedLoop subs2 l j index)[i]? = some e ∧
        e.index = index + i ∧
        ∃ a, l[i]? = some a ∧ e.«begin» = a.«begin» ∧ e.«end» = a.«end» ∧ e.text = a.text ∧
          (e.matchText = none ∨ ∃ b ∈ subs2, e.matchText = some b.text ∧
            (beginTicks a - beginTicks b).natAbs < 10000000)
  | [], _, _, i, hi => absurd hi (by simp)
  | a1 :: rest, j, index, 0, hi => by
    simp only [pairedLoop]
    refine ⟨_, List.getElem?_cons_zero, by simp, a1, List.getElem?_cons_zero, rfl, rfl, rfl, ?_⟩
    show matchTextOf subs2 j a1 = none ∨ _
    unfold matchTextOf
    rcases hb : (bestFor subs2 j a1).bestMatch with _ | bm
    · left
      rfl
    · by_cases hlt : (bestFor subs2 j a1).minTimeDiff < 10000000
      · right
        obtain ⟨hmem, hmin, -⟩ := bestFor_spec subs2 j a1 bm hb
        refine ⟨bm, hmem, ?_, ?_⟩
        · show (if (bestFor subs2 j a1).minTimeDiff < 10000000 then some bm.text else none) =
            some bm.text
          rw [if_pos hlt]
        · rw [← hmin]
          exact hlt
      · left
        show (if (bestFor subs2 j a1).minTimeDiff < 10000000 then some bm.text else none) = none
        rw [if_neg hlt]
  | a1 :: rest, j, index, i + 1, hi => by
    obtain ⟨e, he, hidx, a, ha, h1, h2, h3, h4⟩ :=
      pairedLoop_getElem subs2 rest (nextJ subs2 j a1) (index + 1) i (by simpa using hi)
    exact ⟨e, by simpa [pairedLoop] using he, by omega, a, by simpa using ha, h1, h2, h3, h4⟩

/-! Sorting helper lemmas. -/

/-- Evaluation of the stable merge sort on a two-element list. -/
theorem mergeSort_pair {α : Type} (x y : α) (le : α → α → Bool) :
    [x, y].mergeSort le = if le x y then [x, y] else [y, x] := by
  simp [List.mergeSort, List.splitInTwo, List.merge]

/-- Stability of the timeline sort, expressed through filtering at one key:
the subsequence of merged entries with a fixed raw start tick count is
exactly the corresponding subsequence of the unsorted input, in input order. -/
theorem mergeSort_filter_startTime (l : List MergedSub) (k : Int) :
    ((l.mergeSort fun a b => a.startTime ≤ b.startTime).filter fun x => x.startTime == k) =
      l.filter fun x => x.startTime == k := by
  have hS : List.Sublist (l.filter fun x => x.startTime == k)
      (l.mergeSort fun a b => a.startTime ≤ b.startTime) := by
    apply List.sublist_mergeSort
    · intro a b c hab hbc
      simp only [decide_eq_true_eq] at *
      omega
    · intro a b
      simp only [Bool.or_eq_true, decide_eq_true_eq]
      omega
    · apply List.pairwise_of_forall_mem_list
      intro a ha b hb
      have ha2 := (List.mem_filter.mp ha).2
      have hb2 := (List.mem_filter.mp hb).2
      simp only [beq_iff_eq] at ha2 hb2
      simp only [decide_eq_true_eq]
      omega
    · exact List.filter_sublist l
  have hperm : List.Perm
      ((l.mergeSort fun a b => a.startTime ≤ b.startTime).filter fun x => x.startTime == k)
      (l.filter fun x => x.startTime == k) :=
    (List.mergeSort_perm l _).filter _
  have h1 : List.Sublist (l.filter fun x => x.startTime == k)
      ((l.mergeSort fun a b => a.startTime ≤ b.startTime).filter fun x => x.startTime == k) := by
    have h2 := hS.filter (fun x => x.startTime == k)
    rwa [List.filter_eq_self.mpr (fun a ha => (List.mem_filter.mp ha).2)] at h2
  exact (h1.eq_of_length hperm.length_eq.symm).symm

/-- With an empty secondary track the search loop never finds anything, so no
entry carries a second text block. -/
theorem pairedLoop_nil_matchText : ∀ (l : List Subtitle) (j : Int) (index : Nat),
    ∀ e ∈ pairedLoop [] l j index, e.matchText = none
  | [], _, _ => by simp [pairedLoop]
  | a1 :: rest, j, index => by
    intro e he
    simp only [pairedLoop] at he
    rcases List.mem_cons.mp he with rfl | hmem
    · show matchTextOf [] j a1 = none
      simp [matchTextOf, bestFor, findBestAux]
    · exact pairedLoop_nil_matchText rest (nextJ [] j a1) (index + 1) e hmem

/-! Claim theorems. -/

/-- C5: the Paired Match strategy produces exactly one output entry per cue
of the (sorted) primary sequence A, in A's order, each carrying A's text and
raw time range, with the matched secondary cue's text appended as a second
text block only when a match within the acceptance threshold (raw tick
difference below 10,000,000, one second at the default tick rate) was found;
the output length equals the length of A regardless of B, including empty B. -/
theorem paired_shape (subs1 subs2 : List Subtitle)
    (hs : subs1.Pairwise fun a b => beginTicks a ≤ beginTicks b) :
    (createCombinedSRTPairedEntries subs1 subs2).length = subs1.length ∧
    ∀ i, i < subs1.length →
      ∃ e, (createCombinedSRTPairedEntries subs1 subs2)[i]? = some e ∧
        e.index = i + 1 ∧
        ∃ a, subs1[i]? = some a ∧ e.«begin» = a.«begin» ∧ e.«end» = a.«end» ∧
          e.text = a.text ∧
          (e.matchText = none ∨ ∃ b ∈ subs2, e.matchText = some b.text ∧
            (beginTicks a - beginTicks b).natAbs < 10000000) := by
  have hsort : sortSubs subs1 = subs1 :=
    List.mergeSort_of_sorted (hs.imp (by simp only [decide_eq_true_eq]; exact fun h => h))
  have hE : createCombinedSRTPairedEntries subs1 subs2 =
      pairedLoop (sortSubs subs2) subs1 0 1 := by
    show pairedLoop (sortSubs subs2) (sortSubs subs1) 0 1 = _
    rw [hsort]
  constructor
  · rw [hE, pairedLoop_length]
  · intro i hi
    obtain ⟨e, he, hidx, a, ha, h1, h2, h3, h4⟩ :=
      pairedLoop_getElem (sortSubs subs2) subs1 0 1 i hi
    refine ⟨e, by rw [hE]; exact he, by omega, a, ha, h1, h2, h3, ?_⟩
    rcases h4 with h4 | ⟨b, hb, h5, h6⟩
    · exact Or.inl h4
    · exact Or.inr ⟨b, List.mem_mergeSort.mp hb, h5, h6⟩

/-- C5 witness: the shape theorem applied to a concrete sorted primary track
and a concrete secondary track. -/
theorem paired_shape_witness :
    ([cue 0 1 "a1"] : List Subtitle).Pairwise
      (fun a b => beginTicks a ≤ beginTicks b) ∧
    (createCombinedSRTPairedEntries [cue 0 1 "a1"] [cue 0 1 "b1"]).length = 1 ∧
    ∀ i, i < ([cue 0 1 "a1"] : List Subtitle).length →
      ∃ e, (createCombinedSRTPairedEntries [cue 0 1 "a1"] [cue 0 1 "b1"])[i]? = some e ∧
        e.index = i + 1 ∧
        ∃ a, ([cue 0 1 "a1"] : List Subtitle)[i]? = some a ∧ e.«begin» = a.«begin» ∧
          e.«end» = a.«end» ∧ e.text = a.text ∧
          (e.matchText = none ∨ ∃ b ∈ [cue 0 1 "b1"], e.matchText = some b.text ∧
            (beginTicks a - beginTicks b).natAbs < 10000000) := by
  have h := paired_shape [cue 0 1 "a1"] [cue 0 1 "b1"] (by decide)
  exact ⟨by decide, h.1, h.2⟩

/-- C2 (amended): every matched pair produced by the Paired Match strategy
has absolute RAW TICK difference of start values strictly below 10,000,000
ticks — the code compares raw tick counts, which equals a one-second
normalized gap only when the track tick rate is the default 10,000,000. -/
theorem paired_rawTickGap (subs1 subs2 : List Subtitle) :
    ∀ e ∈ createCombinedSRTPairedEntries subs1 subs2, ∀ t, e.matchText = some t →
      ∃ a ∈ subs1, ∃ b ∈ subs2, e.«begin» = a.«begin» ∧ e.text = a.text ∧ t = b.text ∧
        (beginTicks a - beginTicks b).natAbs < 10000000 := by
  intro e he t ht
  obtain ⟨i, hi⟩ := List.mem_iff_getElem?.mp he
  have hlen : i < (sortSubs subs1).length := by
    have h1 : i < (createCombinedSRTPairedEntries subs1 subs2).length :=
      (List.getElem?_eq_some.mp hi).1
    rwa [show createCombinedSRTPairedEntries subs1 subs2 =
        pairedLoop (sortSubs subs2) (sortSubs subs1) 0 1 from rfl,
      pairedLoop_length] at h1
  obtain ⟨e2, he2, -, a, ha, h1, -, h3, h4⟩ :=
    pairedLoop_getElem (sortSubs subs2) (sortSubs subs1) 0 1 i hlen
  have he2e : e2 = e := by
    have : some e2 = some e := by
      rw [← he2, ← hi]
      rfl
    exact Option.some_inj.mp this
  subst he2e
  rcases h4 with h4 | ⟨b, hb, h5, h6⟩
  · rw [ht] at h4
    exact absurd h4 (by simp)
  · rw [ht] at h5
    refine ⟨a, ?_, b, List.mem_mergeSort.mp hb, h1, h3, Option.some_inj.mp h5, h6⟩
    exact List.mem_mergeSort.mp (List.getElem?_mem ha)

/-- C2 witness: the raw-tick gap theorem applied to a concrete matched pair. -/
theorem paired_rawTickGap_witness :
    ∃ a ∈ [cue 0 1 "a1"], ∃ b ∈ [cue 0 1 "b1"],
      ({ index := 1, «begin» := "0t", «end» := "1t", text := "a1",
         matchText := some "b1" } : PairedEntry).«begin» = a.«begin» ∧
      ({ index := 1, «begin» := "0t", «end» := "1t", text := "a1",
         matchText := some "b1" } : PairedEntry).text = a.text ∧
      "b1" = b.text ∧ (beginTicks a - beginTicks b).natAbs < 10000000 := by
  have hE : createCombinedSRTPairedEntries [cue 0 1 "a1"] [cue 0 1 "b1"] =
      [{ index := 1, «begin» := "0t", «end» := "1t", text := "a1", matchText := some "b1" }] := by
    show pairedLoop (sortSubs [cue 0 1 "b1"]) (sortSubs [cue 0 1 "a1"]) 0 1 = _
    rw [show sortSubs [cue 0 1 "b1"] = [cue 0 1 "b1"] from List.mergeSort_of_sorted (by decide),
      show sortSubs [cue 0 1 "a1"] = [cue 0 1 "a1"] from List.mergeSort_of_sorted (by decide)]
    decide
  exact paired_rawTickGap [cue 0 1 "a1"] [cue 0 1 "b1"] _
    (hE ▸ List.mem_cons_self _ _) "b1" rfl

/-- C2 counterexample: with differing tick rates a pair is matched (raw tick
difference 9,999,999 < 10,000,000) although its normalized start-time gap is
9999999/2700000 ≈ 3.7 seconds, at least the claimed 1-second default bound. -/
theorem paired_normalizedGap_cex :
    (createCombinedSRTPairedEntries [cue 0 1 "a1"] [cue 9999999 10000000 "b1"]).map
        (fun e => e.matchText) = [some "b1"] ∧
    1 ≤ |specNormalize 0 10000000 - specNormalize 9999999 2700000| := by
  constructor
  · show (pairedLoop (sortSubs [cue 9999999 10000000 "b1"]) (sortSubs [cue 0 1 "a1"]) 0 1).map
        (fun e => e.matchText) = [some "b1"]
    rw [show sortSubs [cue 9999999 10000000 "b1"] = [cue 9999999 10000000 "b1"] from
        List.mergeSort_of_sorted (by decide),
      show sortSubs [cue 0 1 "a1"] = [cue 0 1 "a1"] from List.mergeSort_of_sorted (by decide)]
    decide
  · rw [le_abs]
    right
    norm_num [specNormalize]

/-- C3 (amended): across the Paired Match pass the cursor `j` into B is
non-decreasing except for a bounded backward step of at most BACKTRACK = 2
per iteration.  (The other half of the original claim is false: an index of
B inside the backtrack window can be matched to more than one cue of A, see
the counterexample.) -/
theorem paired_cursor_backtrack_bound (subs2 : List Subtitle) (j : Int) (a : Subtitle) :
    j - 2 ≤ nextJ subs2 j a :=
  nextJ_ge subs2 j a

/-- C3 counterexample: two primary cues at tick 0 against a single secondary
cue at tick 0 — the lone B cue (index 0) is matched to both A cues, because
after the first match the cursor moves to 1 but the backtrack window
`max(0, j - 2) = 0` re-examines the already matched index. -/
theorem paired_rematch_cex :
    (createCombinedSRTPairedEntries [cue 0 1 "a1", cue 0 1 "a2"] [cue 0 1 "b1"]).map
        (fun e => e.matchText) = [some "b1", some "b1"] ∧
    ([cue 0 1 "b1"] : List Subtitle).length = 1 := by
  constructor
  · show (pairedLoop (sortSubs [cue 0 1 "b1"]) (sortSubs [cue 0 1 "a1", cue 0 1 "a2"]) 0 1).map
        (fun e => e.matchText) = [some "b1", some "b1"]
    rw [show sortSubs [cue 0 1 "b1"] = [cue 0 1 "b1"] from List.mergeSort_of_sorted (by decide),
      show sortSubs [cue 0 1 "a1", cue 0 1 "a2"] = [cue 0 1 "a1", cue 0 1 "a2"] from
        List.mergeSort_of_sorted (by decide)]
    decide
  · rfl

/-- C7: with an empty secondary sequence every Paired Match output entry
carries the primary cue's text alone, and with an empty primary sequence the
output is empty. -/
theorem paired_empty_tracks (subs1 subs2 : List Subtitle) :
    (createCombinedSRTPairedEntries subs1 []).length = subs1.length ∧
    (∀ e ∈ createCombinedSRTPairedEntries subs1 [], e.matchText = none) ∧
    createCombinedSRTPairedEntries [] subs2 = [] := by
  have hnil : sortSubs [] = ([] : List Subtitle) := List.mergeSort_nil
  refine ⟨?_, ?_, ?_⟩
  · show (pairedLoop (sortSubs []) (sortSubs subs1) 0 1).length = _
    rw [hnil, pairedLoop_length]
    exact List.length_mergeSort subs1
  · intro e he
    have he2 : e ∈ pairedLoop [] (sortSubs subs1) 0 1 := by
      rwa [show createCombinedSRTPairedEntries subs1 [] =
        pairedLoop (sortSubs []) (sortSubs subs1) 0 1 from rfl, hnil] at he
    exact pairedLoop_nil_matchText (sortSubs subs1) 0 1 e he2
  · show pairedLoop (sortSubs subs2) (sortSubs []) 0 1 = []
    rw [hnil]
    rfl

/-- C7 witness: the empty-track theorem applied at concrete inputs, including
the second conjunct at the single concrete output entry. -/
theorem paired_empty_tracks_witness :
    (createCombinedSRTPairedEntries [cue 5000000 6000000 "a1"] []).length = 1 ∧
    ({ index := 1, «begin» := "5000000t", «end» := "6000000t", text := "a1",
       matchText := none } : PairedEntry).matchText = none ∧
    createCombinedSRTPairedEntries [] [cue 0 1 "b1"] = [] := by
  have h := paired_empty_tracks [cue 5000000 6000000 "a1"] [cue 0 1 "b1"]
  have hE : createCombinedSRTPairedEntries [cue 5000000 6000000 "a1"] [] =
      [{ index := 1, «begin» := "5000000t", «end» := "6000000t", text := "a1",
         matchText := none }] := by
    show pairedLoop (sortSubs []) (sortSubs [cue 5000000 6000000 "a1"]) 0 1 = _
    rw [show sortSubs ([] : List Subtitle) = [] from List.mergeSort_nil,
      show sortSubs [cue 5000000 6000000 "a1"] = [cue 5000000 6000000 "a1"] from
        List.mergeSort_of_sorted (by decide)]
    decide
  exact ⟨h.1, h.2.1 _ (hE ▸ List.mem_cons_self _ _), h.2.2⟩

/-- C6 (amended): for a primary cue with cursor value `j`, the examined
secondary indices are exactly the half-open range from
`startJ = max(0, j - 2)` to `min(len B, startJ + 10)`, and within that range
the search selects the cue minimizing the absolute RAW TICK start difference
(not the normalized one), ties broken by the earliest index in B. -/
theorem paired_window_argmin (subs2 : List Subtitle) (a : Subtitle) (j : Int)
    (hwf2 : ∀ b ∈ subs2, wfTick b.«begin» = true) (hwa : wfTick a.«begin» = true)
    (hne : (j - 2).toNat < subs2.length) :
    (j - 2).toNat = (max 0 (j - 2)).toNat ∧
    ∃ kb bm, (j - 2).toNat ≤ kb ∧ kb < min subs2.length ((j - 2).toNat + 10) ∧
      subs2[kb]? = some bm ∧
      bestFor subs2 j a =
        ⟨some bm, (kb : Int), (beginTicks a - beginTicks bm).natAbs⟩ ∧
      (∀ m b, (j - 2).toNat ≤ m → m < min subs2.length ((j - 2).toNat + 10) →
        subs2[m]? = some b →
        (beginTicks a - beginTicks bm).natAbs ≤ (beginTicks a - beginTicks b).natAbs) ∧
      ∀ m b, (j - 2).toNat ≤ m → m < kb → subs2[m]? = some b →
        (beginTicks a - beginTicks bm).natAbs < (beginTicks a - beginTicks b).natAbs := by
  refine ⟨by omega, ?_⟩
  have hrange : (j - 2).toNat + (min subs2.length ((j - 2).toNat + 10) - (j - 2).toNat) =
      min subs2.length ((j - 2).toNat + 10) := by omega
  rcases findBestAux_cases subs2 (beginTicks a)
      (min subs2.length ((j - 2).toNat + 10) - (j - 2).toNat) ((j - 2).toNat)
      ⟨none, -1, maxSafeInteger⟩ with ⟨-, hmin⟩ |
    ⟨kb, bm, hk1, hk2, hkb, heq, -, hbest, hfirst⟩
  · exfalso
    have hsome : subs2[(j - 2).toNat]? = some (subs2[(j - 2).toNat]) :=
      List.getElem?_eq_getElem hne
    have h1 := hmin ((j - 2).toNat) _ (Nat.le_refl _) (by omega) hsome
    have h2 := wfTick_beginTicks (hwf2 _ (List.getElem?_mem hsome))
    have h3 := wfTick_beginTicks hwa
    have h4 : ((beginTicks a - beginTicks (subs2[(j - 2).toNat])).natAbs) <
        maxSafeInteger := by
      show _ < 9007199254740991
      omega
    simp only [BestMatch.mk.injEq] at h1
    omega
  · refine ⟨kb, bm, hk1, by omega, hkb, ?_, fun m b hm1 hm2 hmb => ?_, hfirst⟩
    · show findBestAux subs2 (beginTicks a) ((j - 2).toNat)
        (min subs2.length ((j - 2).toNat + 10) - (j - 2).toNat)
        ⟨none, -1, maxSafeInteger⟩ = _
      exact heq
    · exact hbest m b hm1 (by omega) hmb

/-- C6 witness: the window/argmin theorem applied to a one-cue secondary
track at cursor 0. -/
theorem paired_window_argmin_witness :
    (∀ b ∈ [cue 0 1 "b1"], wfTick b.«begin» = true) ∧ wfTick (cue 5 6 "a1").«begin» = true ∧
    (((0 : Int) - 2).toNat < ([cue 0 1 "b1"] : List Subtitle).length) ∧
    (((0 : Int) - 2).toNat = (max 0 ((0 : Int) - 2)).toNat ∧
      ∃ kb bm, ((0 : Int) - 2).toNat ≤ kb ∧
        kb < min ([cue 0 1 "b1"] : List Subtitle).length (((0 : Int) - 2).toNat + 10) ∧
        ([cue 0 1 "b1"] : List Subtitle)[kb]? = some bm ∧
        bestFor [cue 0 1 "b1"] 0 (cue 5 6 "a1") =
          ⟨some bm, (kb : Int), (beginTicks (cue 5 6 "a1") - beginTicks bm).natAbs⟩ ∧
        (∀ m b, ((0 : Int) - 2).toNat ≤ m →
          m < min ([cue 0 1 "b1"] : List Subtitle).length (((0 : Int) - 2).toNat + 10) →
          ([cue 0 1 "b1"] : List Subtitle)[m]? = some b →
          (beginTicks (cue 5 6 "a1") - beginTicks bm).natAbs ≤
            (beginTicks (cue 5 6 "a1") - beginTicks b).natAbs) ∧
        ∀ m b, ((0 : Int) - 2).toNat ≤ m → m < kb →
          ([cue 0 1 "b1"] : List Subtitle)[m]? = some b →
          (beginTicks (cue 5 6 "a1") - beginTicks bm).natAbs <
            (beginTicks (cue 5 6 "a1") - beginTicks b).natAbs) :=
  ⟨by decide, by decide, by decide,
    paired_window_argmin [cue 0 1 "b1"] (cue 5 6 "a1") 0 (by decide) (by decide) (by decide)⟩

/-- C6 counterexample: with track A at tick rate 10,000,000 and track B at
tick rate 2,700,000, the cue at B-index 0 has normalized distance 0 seconds
from the primary cue while the cue at B-index 1 is about 2.7 seconds away,
yet the code selects index 1, whose RAW tick distance (1,000) is smaller —
the selection does not minimize the normalized start-time difference. -/
theorem paired_argmin_metric_cex :
    (createCombinedSRTPairedEntries [cue 10000000 10000001 "a1"]
        [cue 2700000 2700001 "b0", cue 9999000 9999001 "b1"]).map (fun e => e.matchText) =
      [some "b1"] ∧
    |specNormalize 10000000 10000000 - specNormalize 2700000 2700000| <
      |specNormalize 10000000 10000000 - specNormalize 9999000 2700000| := by
  constructor
  · show (pairedLoop (sortSubs [cue 2700000 2700001 "b0", cue 9999000 9999001 "b1"])
        (sortSubs [cue 10000000 10000001 "a1"]) 0 1).map (fun e => e.matchText) = [some "b1"]
    rw [show sortSubs [cue 2700000 2700001 "b0", cue 9999000 9999001 "b1"] =
        [cue 2700000 2700001 "b0", cue 9999000 9999001 "b1"] from
        List.mergeSort_of_sorted (by decide),
      show sortSubs [cue 10000000 10000001 "a1"] = [cue 10000000 10000001 "a1"] from
        List.mergeSort_of_sorted (by decide)]
    decide
  · norm_num [specNormalize]

/-- C1 (amended): the Timeline Merge output is sorted ascending by the RAW
start tick count (`parseInt(begin)` without dividing by the tick rate), and
the sort is stable: among entries with equal raw tick count, all track-A
entries precede all track-B entries, each in input order.  Only when both
tracks share one tick rate does this coincide with normalized-time order. -/
theorem timeline_rawTickOrder (subs1 subs2 : List Subtitle) (language1 language2 : String)
    (tickRate1 tickRate2 : Nat)
    (hwf1 : ∀ s ∈ subs1, wfTick s.«begin» = true)
    (hwf2 : ∀ s ∈ subs2, wfTick s.«begin» = true) :
    (mergedSubtitles subs1 subs2 language1 language2 tickRate1 tickRate2).Pairwise
      (fun a b => a.startTime ≤ b.startTime) ∧
    ∀ k : Int,
      ((mergedSubtitles subs1 subs2 language1 language2 tickRate1 tickRate2).filter
        fun x => x.startTime == k) =
      ((subs1.map (toMerged language1 tickRate1)).filter fun x => x.startTime == k) ++
        ((subs2.map (toMerged language2 tickRate2)).filter fun x => x.startTime == k) := by
  constructor
  · have hs : ((subs1.map (toMerged language1 tickRate1) ++
        subs2.map (toMerged language2 tickRate2)).mergeSort
          fun a b => a.startTime ≤ b.startTime).Pairwise
        (fun a b => decide (a.startTime ≤ b.startTime) = true) := by
      apply List.sorted_mergeSort
      · intro a b c hab hbc
        simp only [decide_eq_true_eq] at *
        omega
      · intro a b
        simp only [Bool.or_eq_true, decide_eq_true_eq]
        omega
    exact hs.imp (by simp only [decide_eq_true_eq]; exact fun h => h)
  · intro k
    unfold mergedSubtitles
    rw [mergeSort_filter_startTime, List.filter_append]

/-- C1 witness: the raw-tick order theorem applied to concrete two-track
input. -/
theorem timeline_rawTickOrder_witness :
    (∀ s ∈ [cue 0 1 "a1"], wfTick s.«begin» = true) ∧
    (∀ s ∈ [cue 5 6 "b1"], wfTick s.«begin» = true) ∧
    ((mergedSubtitles [cue 0 1 "a1"] [cue 5 6 "b1"] "kr" "ch" 10000000 10000000).Pairwise
      (fun a b => a.startTime ≤ b.startTime) ∧
    ∀ k : Int,
      ((mergedSubtitles [cue 0 1 "a1"] [cue 5 6 "b1"] "kr" "ch" 10000000 10000000).filter
        fun x => x.startTime == k) =
      ((([cue 0 1 "a1"] : List Subtitle).map (toMerged "kr" 10000000)).filter
        fun x => x.startTime == k) ++
        ((([cue 5 6 "b1"] : List Subtitle).map (toMerged "ch" 10000000)).filter
          fun x => x.startTime == k)) :=
  ⟨by decide, by decide,
    timeline_rawTickOrder [cue 0 1 "a1"] [cue 5 6 "b1"] "kr" "ch" 10000000 10000000
      (by decide) (by decide)⟩

/-- C1 counterexample: the spec's scenario with differing tick rates.  The A
cue at 10,000,000 ticks of rate 10,000,000 and the B cue at 2,700,000 ticks
of rate 2,700,000 both normalize to exactly 1.0 second, so under the claim
they are simultaneous and the A cue must come first; the code instead sorts
by raw tick counts and outputs the B cue first. -/
theorem timeline_normalizedOrder_cex :
    (mergedSubtitles [cue 10000000 10000001 "a1"] [cue 2700000 2700001 "b1"] "kr" "ch"
        10000000 2700000).map (fun m => m.text) = ["b1", "a1"] ∧
    specNormalize 10000000 10000000 = specNormalize 2700000 2700000 := by
  constructor
  · show (([toMerged "kr" 10000000 (cue 10000000 10000001 "a1"),
        toMerged "ch" 2700000 (cue 2700000 2700001 "b1")].mergeSort
        fun a b => a.startTime ≤ b.startTime).map fun m => m.text) = ["b1", "a1"]
    rw [mergeSort_pair]
    decide
  · norm_num [specNormalize]

/-- C4: for non-empty tracks the Timeline Merge output has exactly
`len A + len B` entries, and the multiset of output texts is exactly the
multiset of input texts — no text is missing or duplicated. -/
theorem timeline_complete (subs1 subs2 : List Subtitle) (language1 language2 : String)
    (tickRate1 tickRate2 : Nat) (h1 : subs1 ≠ []) (h2 : subs2 ≠ []) :
    (mergedSubtitles subs1 subs2 language1 language2 tickRate1 tickRate2).length =
      subs1.length + subs2.length ∧
    List.Perm
      ((mergedSubtitles subs1 subs2 language1 language2 tickRate1 tickRate2).map
        fun m => m.text)
      (subs1.map Subtitle.text ++ subs2.map Subtitle.text) := by
  constructor
  · show (List.mergeSort _ _).length = _
    rw [List.length_mergeSort, List.length_append, List.length_map, List.length_map]
  · have hp := (List.mergeSort_perm
      (subs1.map (toMerged language1 tickRate1) ++ subs2.map (toMerged language2 tickRate2))
      (fun a b => a.startTime ≤ b.startTime)).map fun m => m.text
    refine hp.trans (List.Perm.of_eq ?_)
    rw [List.map_append, List.map_map, List.map_map]
    have hcomp : ∀ (lang : String) (rate : Nat),
        ((fun (m : MergedSub) => m.text) ∘ toMerged lang rate) = Subtitle.text :=
      fun _ _ => funext fun _ => rfl
    rw [hcomp, hcomp]

/-- C4 witness: the completeness theorem applied to concrete non-empty
tracks. -/
theorem timeline_complete_witness :
    ([cue 0 1 "a1"] : List Subtitle) ≠ [] ∧ ([cue 5 6 "b1"] : List Subtitle) ≠ [] ∧
    ((mergedSubtitles [cue 0 1 "a1"] [cue 5 6 "b1"] "kr" "ch" 10000000 10000000).length =
      1 + 1 ∧
    List.Perm
      ((mergedSubtitles [cue 0 1 "a1"] [cue 5 6 "b1"] "kr" "ch" 10000000 10000000).map
        fun m => m.text)
      (([cue 0 1 "a1"] : List Subtitle).map Subtitle.text ++
        ([cue 5 6 "b1"] : List Subtitle).map Subtitle.text)) :=
  ⟨by decide, by decide,
    timeline_complete [cue 0 1 "a1"] [cue 5 6 "b1"] "kr" "ch" 10000000 10000000
      (by decide) (by decide)⟩

/-- C8 (amended): time normalization and the strategies built on it are total
— there is no `InvalidTimeInput` failure path in the code, no cue is ever
excluded from the aligned output, and no skipped-cue diagnostics exist.  The
output always contains one entry per input cue for arbitrary tick rates
(including zero) and arbitrary (even non-numeric) tick attribute strings. -/
theorem normalization_total (subs1 subs2 : List Subtitle) (language1 language2 : String)
    (tickRate1 tickRate2 : Nat) :
    (mergedSubtitles subs1 subs2 language1 language2 tickRate1 tickRate2).length =
      subs1.length + subs2.length ∧
    (createCombinedSRTPairedEntries subs1 subs2).length = subs1.length := by
  constructor
  · show (List.mergeSort _ _).length = _
    rw [List.length_mergeSort, List.length_append, List.length_map, List.length_map]
  · show (pairedLoop (sortSubs subs2) (sortSubs subs1) 0 1).length = _
    rw [pairedLoop_length]
    exact List.length_mergeSort subs1

/-- C8 counterexample: a cue whose track has tick rate zero — which the
claim says must fail with `InvalidTimeInput`, be excluded from the aligned
output and be reported as a skipped-cue diagnostic — is still included in
the Timeline Merge output (the code performs no validation, collects no
diagnostics and excludes nothing). -/
theorem normalization_no_error_cex :
    (mergedSubtitles [cue 5 6 "a1"] [] "kr" "ch" 0 10000000).map (fun m => m.text) =
      ["a1"] := by
  show (([toMerged "kr" 0 (cue 5 6 "a1")].mergeSort
      fun a b => a.startTime ≤ b.startTime).map fun m => m.text) = ["a1"]
  rw [List.mergeSort_singleton]
  rfl

/-- C9: both strategies are deterministic functions of the extracted cue
sequences alone.  The embedding is a pure function, faithfully so: the
source's content-building code reads no ambient state (no clock, randomness
or global mutability) between extraction and output, hence byte-identical
inputs yield the byte-identical output strings. -/
theorem strategies_deterministic (subs1 subs2 subs1' subs2' : List Subtitle)
    (language1 language2 : String) (tickRate1 tickRate2 tickRateP : Nat)
    (h1 : subs1 = subs1') (h2 : subs2 = subs2') :
    createCombinedSRTTimelineContent subs1 subs2 language1 language2 tickRate1 tickRate2 =
      createCombinedSRTTimelineContent subs1' subs2' language1 language2 tickRate1 tickRate2 ∧
    createCombinedSRTPairedContent subs1 subs2 tickRateP =
      createCombinedSRTPairedContent subs1' subs2' tickRateP := by
  subst h1
  subst h2
  exact ⟨rfl, rfl⟩

/-- C9 witness: determinism applied at a concrete input. -/
theorem strategies_deterministic_witness :
    createCombinedSRTTimelineContent [cue 0 1 "a1"] [cue 5 6 "b1"] "kr" "ch"
        10000000 10000000 =
      createCombinedSRTTimelineContent [cue 0 1 "a1"] [cue 5 6 "b1"] "kr" "ch"
        10000000 10000000 ∧
    createCombinedSRTPairedContent [cue 0 1 "a1"] [cue 5 6 "b1"] 10000000 =
      createCombinedSRTPairedContent [cue 0 1 "a1"] [cue 5 6 "b1"] 10000000 :=
  strategies_deterministic [cue 0 1 "a1"] [cue 5 6 "b1"] [cue 0 1 "a1"] [cue 5 6 "b1"]
    "kr" "ch" 10000000 10000000 10000000 rfl rfl

/-- C10: cue extraction with a language argument other than `"kr"` or `"ch"`
falls through both regex branches and returns the empty cue sequence, so the
conversion and combination operations on such input produce empty output
rather than failing. -/
theorem extract_unknown_language (xmlContent : String) (language : String)
    (h1 : language ≠ "kr") (h2 : language ≠ "ch") :
    extractSubtitlesWithRegex xmlContent language = [] ∧
    convertToSRTContent (extractSubtitlesWithRegex xmlContent language) 10000000 = "" ∧
    createCombinedSRTPairedEntries (extractSubtitlesWithRegex xmlContent language)
      (extractSubtitlesWithRegex xmlContent language) = [] := by
  have he : extractSubtitlesWithRegex xmlContent language = [] := by
    unfold extractSubtitlesWithRegex
    rw [if_neg h1, if_neg h2]
  refine ⟨he, by rw [he]; rfl, ?_⟩
  rw [he]
  show pairedLoop (sortSubs []) (sortSubs []) 0 1 = []
  rw [show sortSubs ([] : List Subtitle) = [] from List.mergeSort_nil]
  rfl

/-- C10 witness: extraction with the unrecognized language tag `"en"`. -/
theorem extract_unknown_language_witness :
    extractSubtitlesWithRegex "<tt/>" "en" = [] ∧
    convertToSRTContent (extractSubtitlesWithRegex "<tt/>" "en") 10000000 = "" ∧
    createCombinedSRTPairedEntries (extractSubtitlesWithRegex "<tt/>" "en")
      (extractSubtitlesWithRegex "<tt/>" "en") = [] :=
  extract_unknown_language "<tt/>" "en" (by decide) (by decide)

end XmlSubtitle
